import Mathlib

/-!
Shallow embedding of selected parts of the Angular components repository
(CDK accordion, nested tree control, migration tooling, testing fake events,
fullscreen overlay container, snack-bar container, calendar), together with
theorems checking the natural-language specification against the code.
-/

namespace Spec2Proof

/-! ## CDK accordion item (src/cdk/accordion/accordion-item.ts) -/

/-- The `CdkAccordion` parent directive as seen by an accordion item:
its unique id and its `multi` flag. -/
structure CdkAccordion where
  id : String
  multi : Bool
deriving DecidableEq, Repr

/-- Observable events emitted by `CdkAccordionItem`: the `expandedChange`,
`opened` and `closed` emitters, and the `UniqueSelectionDispatcher.notify`
call made from the `expanded` setter. -/
inductive AccEvent where
  | expandedChange (itemId : String) (value : Bool)
  | opened (itemId : String)
  | closed (itemId : String)
  | notify (id : String) (accordionId : String)
deriving DecidableEq, Repr

/-- State of a `CdkAccordionItem`: its unique id, the (optional) accordion it
registered to, and the private `_expanded` / `_disabled` backing fields. -/
structure CdkAccordionItem where
  id : String
  accordion : Option CdkAccordion
  _expanded : Bool
  _disabled : Bool
deriving DecidableEq, Repr

/-- The `expanded` setter of `CdkAccordionItem` (accordion-item.ts lines
105-132): only when the value changes it updates `_expanded`, emits
`expandedChange`, then either emits `opened` and notifies the dispatcher with
`(this.id, accordionId)` (where `accordionId` is the accordion's id, or the
item's own id when it has no accordion), or emits `closed`. -/
def setExpanded (item : CdkAccordionItem) (value : Bool) :
    CdkAccordionItem × List AccEvent :=
  if item._expanded ≠ value then
    let item' := { item with _expanded := value }
    if value then
      let accordionId := match item.accordion with
        | some a => a.id
        | none => item.id
      (item', [AccEvent.expandedChange item.id value, AccEvent.opened item.id,
               AccEvent.notify item.id accordionId])
    else
      (item', [AccEvent.expandedChange item.id value, AccEvent.closed item.id])
  else
    (item, [])

/-- The listener registered with the `UniqueSelectionDispatcher` in the
`CdkAccordionItem` constructor (accordion-item.ts lines 157-163): when the
item belongs to a non-multi accordion whose id matches the notified accordion
id and the notified item id differs from this item's id, set `expanded` to
false. -/
def uniqueSelectionListener (item : CdkAccordionItem) (id : String)
    (accordionId : String) : CdkAccordionItem × List AccEvent :=
  match item.accordion with
  | some a =>
      if a.multi = false ∧ a.id = accordionId ∧ item.id ≠ id then
        setExpanded item false
      else
        (item, [])
  | none => (item, [])

/-- Modelled from the spec: `UniqueSelectionDispatcher` of `cdk/collections`
is not under src/; per the spec's accordion single-selection dispatch, its
`notify(id, name)` invokes the listener of every registered accordion item
with the notified item id and accordion id. -/
def notifyAll (items : List CdkAccordionItem) (id : String)
    (accordionId : String) : List CdkAccordionItem :=
  items.map (fun it => (uniqueSelectionListener it id accordionId).1)

/-- `CdkAccordionItem.toggle` (accordion-item.ts lines 192-196). -/
def toggle (item : CdkAccordionItem) : CdkAccordionItem × List AccEvent :=
  if item._disabled = false then setExpanded item (!item._expanded)
  else (item, [])

/-- `CdkAccordionItem.close` (accordion-item.ts lines 204-208). -/
def closeItem (item : CdkAccordionItem) : CdkAccordionItem × List AccEvent :=
  if item._disabled = false then setExpanded item false else (item, [])

/-- `CdkAccordionItem.open` (accordion-item.ts lines 216-220). -/
def openItem (item : CdkAccordionItem) : CdkAccordionItem × List AccEvent :=
  if item._disabled = false then setExpanded item true else (item, [])

/-- The callback subscribed to the accordion's `_openCloseAllActions`
(accordion-item.ts lines 222-229): only change the expanded state when the
item is enabled. -/
def openCloseAllHandler (item : CdkAccordionItem) (expanded : Bool) :
    CdkAccordionItem × List AccEvent :=
  if item._disabled = false then setExpanded item expanded else (item, [])

/-! ## Nested tree control (src/unnamed/part_003, `NestedTreeControl`) -/

/-- A data node whose `getChildren` returns a plain array at every level:
the synchronous-array case of `NestedTreeControl`'s
`getChildren: (dataNode: T) => Observable<T[]> | T[] | undefined | null`. -/
inductive DataNode (κ : Type) where
  | mk (value : κ) (children : List (DataNode κ))

/-- The `getChildren` function for synchronous-array data nodes. -/
def getChildren {κ : Type} : DataNode κ → List (DataNode κ)
  | DataNode.mk _ cs => cs

mutual

/-- `NestedTreeControl._getDescendants` (part_003 lines 83-98), restricted to
the `Array.isArray(childrenNodes)` branch: push the node on the accumulator,
then recurse into each child in order. -/
def _getDescendants {κ : Type} (descendants : List (DataNode κ)) :
    DataNode κ → List (DataNode κ)
  | DataNode.mk v cs => _getDescendantsOfChildren (descendants ++ [DataNode.mk v cs]) cs

/-- The `childrenNodes.forEach(child => this._getDescendants(descendants, child))`
loop of `_getDescendants`, threading the accumulator left to right. -/
def _getDescendantsOfChildren {κ : Type} (descendants : List (DataNode κ)) :
    List (DataNode κ) → List (DataNode κ)
  | [] => descendants
  | c :: cs => _getDescendantsOfChildren (_getDescendants descendants c) cs

end

/-- `NestedTreeControl.getDescendants` (part_003 lines 69-75): run
`_getDescendants` on an empty accumulator, then `descendants.splice(1)`
returns every collected node except the node itself. -/
def getDescendants {κ : Type} (dataNode : DataNode κ) : List (DataNode κ) :=
  (_getDescendants [] dataNode).drop 1

mutual

/-- Specification-side depth-first preorder traversal of a data node:
the node itself followed by the preorder traversals of its children. -/
def preorder {κ : Type} : DataNode κ → List (DataNode κ)
  | DataNode.mk v cs => DataNode.mk v cs :: preorderOfChildren cs

/-- Concatenation of the preorder traversals of a list of data nodes. -/
def preorderOfChildren {κ : Type} : List (DataNode κ) → List (DataNode κ)
  | [] => []
  | c :: cs => preorder c ++ preorderOfChildren cs

end

/-- Modelled from the spec: `SelectionModel` of `cdk/collections` (the type of
`BaseTreeControl.expansionModel`, not under src/) keeps the set of selected
track-by values; `clear` empties it and `select` adds each given value that is
not yet selected. -/
structure SelectionModel (K : Type) where
  selected : List K
deriving DecidableEq, Repr

/-- Modelled from the spec: `SelectionModel.clear` deselects every value. -/
def SelectionModel.clear {K : Type} (_m : SelectionModel K) : SelectionModel K :=
  ⟨[]⟩

/-- Modelled from the spec: `SelectionModel.select` marks each given value as
selected, skipping values that are already selected. -/
def SelectionModel.select {K : Type} [DecidableEq K] (m : SelectionModel K)
    (values : List K) : SelectionModel K :=
  values.foldl
    (fun m v => if v ∈ m.selected then m else { m with selected := m.selected ++ [v] })
    m

/-- The state of a `NestedTreeControl` used by `expandAll`: the root
`dataNodes`, the expansion model, and the track-by function. The field
`_trackByValue` is modelled from the spec: `BaseTreeControl._trackByValue`
(not under src/) applies the configured `trackBy` when present and is the
identity otherwise. -/
structure NestedTreeControl (κ K : Type) where
  dataNodes : List (DataNode κ)
  expansionModel : SelectionModel K
  _trackByValue : DataNode κ → K

/-- `NestedTreeControl.expandAll` (part_003 lines 56-61): clear the expansion
model, collect for every root node its descendants followed by the root
itself, and select the track-by values of all collected nodes. -/
def expandAll {κ K : Type} [DecidableEq K] (c : NestedTreeControl κ K) :
    NestedTreeControl κ K :=
  let cleared := { c with expansionModel := c.expansionModel.clear }
  let allNodes := c.dataNodes.foldl
    (fun accumulator dataNode => accumulator ++ getDescendants dataNode ++ [dataNode]) []
  { cleared with
    expansionModel := cleared.expansionModel.select (allNodes.map c._trackByValue) }

/-! ## Input-names migration (src/unnamed/part_002, `InputNamesMigration`) -/

/-- One entry of the `inputNames` upgrade data: the outdated input name and
its replacement. Stylesheet contents and names are embedded as `List Char`. -/
structure InputNameUpgradeDatum where
  replace : List Char
  replaceWith : List Char
deriving DecidableEq, Repr

/-- A `ResolvedResource` as used by `visitStylesheet`: its file path, the
offset of its content in the file, and its content. -/
structure ResolvedResource where
  filePath : String
  start : Nat
  content : List Char
deriving DecidableEq, Repr

/-- An edit recorded against the migration's `fileSystem`: the
`remove(start, width)` and `insertRight(start, text)` operations of
`FileSystem.edit`. -/
inductive EditOp where
  | remove (filePath : String) (start : Nat) (width : Nat)
  | insertRight (filePath : String) (start : Nat) (text : List Char)
deriving DecidableEq, Repr

/-- `InputNamesMigration._replaceInputName` (part_002 lines 77-83): a removal
of `width` characters at `start` followed by an insertion of the new name at
the same offset. -/
def _replaceInputName (filePath : String) (start : Nat) (width : Nat)
    (newName : List Char) : List EditOp :=
  [EditOp.remove filePath start width, EditOp.insertRight filePath start newName]

/-- The pattern `search` occurs in `input` at index `i`. -/
def occursAt (input search : List Char) (i : Nat) : Prop :=
  (input.drop i).take search.length = search

instance (input search : List Char) (i : Nat) : Decidable (occursAt input search i) := by
  unfold occursAt
  infer_instance

/-- Modelled from the spec: `findAllSubstringIndices` of
`migration-utilities` typescript literal helpers (not under src/) returns the
indices of every occurrence of `search` in `input`. -/
def findAllSubstringIndices (input search : List Char) : List Nat :=
  (List.range input.length).filter (fun i => decide (occursAt input search i))

/-- The attribute selector `"[" + name + "]"` built by `visitStylesheet`. -/
def attributeSelector (name : List Char) : List Char :=
  '[' :: name ++ [']']

/-- `InputNamesMigration.visitStylesheet` (part_002 lines 42-53): for every
upgrade datum, find all occurrences of the current attribute selector in the
stylesheet content, shift them by the stylesheet start, and record a
`_replaceInputName` edit (of the current selector's length, inserting the
updated selector) at each. -/
def visitStylesheet (data : List InputNameUpgradeDatum)
    (stylesheet : ResolvedResource) : List EditOp :=
  data.flatMap (fun name =>
    let currentSelector := attributeSelector name.replace
    let updatedSelector := attributeSelector name.replaceWith
    ((findAllSubstringIndices stylesheet.content currentSelector).map
        (fun offset => stylesheet.start + offset)).flatMap
      (fun start =>
        _replaceInputName stylesheet.filePath start currentSelector.length
          updatedSelector))

/-! ## Test-harness typing (src/cdk/testing/testbed/fake-events/type-in-element.ts) -/

/-- Modelled from the spec: `PERIOD` of `cdk/keycodes` (not under src/) is the
key code of the period ('.') key. -/
def PERIOD : Nat := 190

/-- A key sent to `typeInElement`, after strings have been split into
per-character keys: an optional key code and an optional key string. -/
structure TypeKey where
  keyCode : Option Nat
  key : Option String
deriving DecidableEq, Repr

/-- `incrementalInputTypes` (type-in-element.ts lines 20-21): input types for
which the value can be entered incrementally. -/
def incrementalInputTypes : List String :=
  ["text", "email", "hidden", "password", "search", "tel", "url"]

/-- The `element.getAttribute('type') || 'text'` expression
(type-in-element.ts line 89): both a missing attribute (`null`) and an empty
attribute value (`''`) are falsy in JavaScript and fall back to `'text'`. -/
def resolvedInputType (typeAttr : Option String) : String :=
  match typeAttr with
  | none => "text"
  | some s => if s = "" then "text" else s

/-- The `enterValueIncrementally` condition (type-in-element.ts lines
100-103): for a non-empty key list on a `number` input, every key must be
neither the '.' key nor the `PERIOD` key code; otherwise the input type must
be one of `incrementalInputTypes`. -/
def enterValueIncrementally (typeAttr : Option String) (keys : List TypeKey) :
    Bool :=
  let inputType := resolvedInputType typeAttr
  if inputType = "number" ∧ 0 < keys.length then
    keys.all (fun k => !(k.key == some ".") && !(k.keyCode == some PERIOD))
  else
    incrementalInputTypes.contains inputType

/-- The `keys.reduce((value, key) => value + (key.key || ''), '')` expression
(type-in-element.ts line 110): concatenation of the key strings. -/
def keysValue (keys : List TypeKey) : String :=
  keys.foldl (fun value k => value ++ k.key.getD "") ""

/-- The `isInput && key.key && key.key.length === 1` guard
(type-in-element.ts line 116) on a single key: a truthy (non-empty) key
string of length one. -/
def singleCharKey (k : TypeKey) : Bool :=
  match k.key with
  | some s => !(s == "") && (s.length == 1)
  | none => false

/-- Observable actions of `typeInElement`: the focus trigger, the keyboard
events, assignments to `element.value` (a wholesale set or a one-character
append), and dispatched `input` events. -/
inductive TypeEvent where
  | focus
  | keydown (k : TypeKey)
  | keypress (k : TypeKey)
  | keyup (k : TypeKey)
  | setValue (v : String)
  | appendValue (s : String)
  | input
deriving DecidableEq, Repr

/-- `typeInElement` (type-in-element.ts lines 88-129) as the list of actions
it performs: focus the element; when not entering incrementally, assign the
full concatenated value; for each key dispatch keydown and keypress, then for
a text-input element and a single-character key in incremental mode append
the character and dispatch `input`, then dispatch keyup; finally, when not
entering incrementally, dispatch a single `input` event. -/
def typeInElement (isInput : Bool) (typeAttr : Option String)
    (keys : List TypeKey) : List TypeEvent :=
  let inc := enterValueIncrementally typeAttr keys
  [TypeEvent.focus]
    ++ (if inc then [] else [TypeEvent.setValue (keysValue keys)])
    ++ keys.flatMap (fun k =>
        [TypeEvent.keydown k, TypeEvent.keypress k]
          ++ (if isInput && singleCharKey k && inc then
                [TypeEvent.appendValue (k.key.getD ""), TypeEvent.input]
              else [])
          ++ [TypeEvent.keyup k])
    ++ (if inc then [] else [TypeEvent.input])

/-- The input type as the claim words it: the element's type attribute,
defaulting to `'text'` only when the attribute is absent. -/
def claimInputType (typeAttr : Option String) : String :=
  typeAttr.getD "text"

/-! ## Fullscreen overlay container (src/material/tooltip/testing/tooltip-harness.ts,
second segment: `FullscreenOverlayContainer`) -/

/-- The document as consulted by `FullscreenOverlayContainer`: the standard
`fullscreenElement` property, its webkit/moz/ms prefixed variants, and the
document body. Elements are identified by strings. -/
structure FsDocument where
  fullscreenElement : Option String
  webkitFullscreenElement : Option String
  mozFullScreenElement : Option String
  msFullscreenElement : Option String
  body : String
deriving DecidableEq, Repr

/-- `FullscreenOverlayContainer.getFullscreenElement` (lines 167-175 of the
claim's numbering): `fullscreenElement || webkitFullscreenElement ||
mozFullScreenElement || msFullscreenElement || null`. -/
def getFullscreenElement (doc : FsDocument) : Option String :=
  doc.fullscreenElement <|> doc.webkitFullscreenElement <|>
    doc.mozFullScreenElement <|> doc.msFullscreenElement

/-- The container state relevant to `_adjustParentForFullscreenChange`: the
(possibly not yet created) container element and the element it is currently
appended to. -/
structure FullscreenOverlayContainer where
  _containerElement : Option String
  parent : Option String
deriving DecidableEq, Repr

/-- `FullscreenOverlayContainer._adjustParentForFullscreenChange` (lines
113-127 of the claim's numbering): do nothing without a container element;
otherwise append the container to the fullscreen element when one exists,
else to `document.body`. -/
def _adjustParentForFullscreenChange (doc : FsDocument)
    (c : FullscreenOverlayContainer) : FullscreenOverlayContainer :=
  match c._containerElement with
  | none => c
  | some _ =>
      let parent := match getFullscreenElement doc with
        | some e => e
        | none => doc.body
      { c with parent := some parent }

/-! ## Snack-bar container (src/material/snack-bar/snack-bar-container.ts) -/

/-- The part of `MatSnackBarConfig` read by `_applySnackBarClasses`:
`panelClass` is `string | string[] | undefined`, and the positions are plain
strings. -/
structure MatSnackBarConfig where
  panelClass : Option (String ⊕ List String)
  horizontalPosition : String
  verticalPosition : String
deriving DecidableEq, Repr

/-- The container state touched by the attach methods: whether the portal
outlet has attached content and the class list of the container element,
plus the configuration. -/
structure MatSnackBarContainer where
  portalOutletAttached : Bool
  elementClassList : List String
  snackBarConfig : MatSnackBarConfig
deriving DecidableEq, Repr

/-- `DOMTokenList.add` on a class list: adding an already-present class is a
no-op. -/
def classListAdd (classes : List String) (cssClass : String) : List String :=
  if cssClass ∈ classes then classes else classes ++ [cssClass]

/-- `MatSnackBarContainer._applySnackBarClasses` (snack-bar-container.ts lines
328-348): add the configured panel classes (a falsy — empty — string is
skipped by the `if (panelClasses)` guard), then `mat-snack-bar-center` when
horizontally centered, then `mat-snack-bar-top` when vertically on top. -/
def _applySnackBarClasses (st : MatSnackBarContainer) : MatSnackBarContainer :=
  let cls0 := st.elementClassList
  let cls1 := match st.snackBarConfig.panelClass with
    | some (Sum.inl one) => if one = "" then cls0 else classListAdd cls0 one
    | some (Sum.inr many) => many.foldl classListAdd cls0
    | none => cls0
  let cls2 := if st.snackBarConfig.horizontalPosition = "center" then
      classListAdd cls1 "mat-snack-bar-center"
    else cls1
  let cls3 := if st.snackBarConfig.verticalPosition = "top" then
      classListAdd cls2 "mat-snack-bar-top"
    else cls2
  { st with elementClassList := cls3 }

/-- `MatSnackBarContainer._assertNotAttached` (snack-bar-container.ts lines
356-360): throw when the portal outlet already has attached content and
`ngDevMode` is undefined or truthy. `ngDevMode` is embedded as
`Option Bool` (`none` = undefined). -/
def _assertNotAttached (ngDevMode : Option Bool) (st : MatSnackBarContainer) :
    Except String Unit :=
  if st.portalOutletAttached = true ∧ (ngDevMode = none ∨ ngDevMode = some true)
  then Except.error "Attempting to attach snack bar content after content is already attached"
  else Except.ok ()

/-- The three kinds of portal content a snack-bar container can attach. -/
inductive PortalKind where
  | component
  | template
  | dom
deriving DecidableEq, Repr

/-- Common body of the three attach methods (snack-bar-container.ts lines
199-232): assert nothing is attached — a throw propagates with the container
state untouched — then apply the snack-bar classes and attach to the portal
outlet (which marks the outlet as having attached content). The outlet
attachment itself is modelled from the spec: `CdkPortalOutlet` of
`cdk/portal` is not under src/. -/
def attachPortalContent (ngDevMode : Option Bool) (st : MatSnackBarContainer)
    (kind : PortalKind) : MatSnackBarContainer × Except String PortalKind :=
  match _assertNotAttached ngDevMode st with
  | Except.error e => (st, Except.error e)
  | Except.ok _ =>
      let st' := _applySnackBarClasses st
      ({ st' with portalOutletAttached := true }, Except.ok kind)

/-- `MatSnackBarContainer.attachComponentPortal` (lines 199-203). -/
def attachComponentPortal (ngDevMode : Option Bool)
    (st : MatSnackBarContainer) : MatSnackBarContainer × Except String PortalKind :=
  attachPortalContent ngDevMode st PortalKind.component

/-- `MatSnackBarContainer.attachTemplatePortal` (lines 211-215). -/
def attachTemplatePortal (ngDevMode : Option Bool)
    (st : MatSnackBarContainer) : MatSnackBarContainer × Except String PortalKind :=
  attachPortalContent ngDevMode st PortalKind.template

/-- `MatSnackBarContainer.attachDomPortal` (lines 228-232). -/
def attachDomPortal (ngDevMode : Option Bool)
    (st : MatSnackBarContainer) : MatSnackBarContainer × Except String PortalKind :=
  attachPortalContent ngDevMode st PortalKind.dom

/-! ## Calendar active date (src/unnamed/part_000, `MatCalendar.activeDate`) -/

/-- Helper for the max-bound check of `clampDate`. -/
def clampDateUpper (date : Int) (maxDate : Option Int) : Int :=
  match maxDate with
  | some m => if m < date then m else date
  | none => date

/-- Modelled from the spec: `DateAdapter.clampDate` of
`material/core/datetime` is not under src/; it clamps the date between the
optional bounds, returning `min` as soon as the date is before `min`, else
`max` when the date is after `max`, else the date itself. Dates are embedded
as integers ordered by `compareDate`. -/
def clampDate (date : Int) (minDate maxDate : Option Int) : Int :=
  match minDate with
  | some m => if date < m then m else clampDateUpper date maxDate
  | none => clampDateUpper date maxDate

/-- The `MatCalendar` state read and written by the `activeDate` accessors:
the `minDate` / `maxDate` bounds and the `_clampedActiveDate` backing field. -/
structure MatCalendar where
  minDate : Option Int
  maxDate : Option Int
  _clampedActiveDate : Int
deriving DecidableEq, Repr

/-- The `MatCalendar.activeDate` setter (part_000 lines 534-538): store
`this._dateAdapter.clampDate(value, this.minDate, this.maxDate)`. -/
def setActiveDate (cal : MatCalendar) (value : Int) : MatCalendar :=
  { cal with _clampedActiveDate := clampDate value cal.minDate cal.maxDate }

/-- The `MatCalendar.activeDate` getter (part_000 line 533). -/
def activeDate (cal : MatCalendar) : Int :=
  cal._clampedActiveDate

/-! ## Lemmas about the accordion item -/

theorem setExpanded_fst_id (item : CdkAccordionItem) (value : Bool) :
    ((setExpanded item value).1).id = item.id := by
  simp only [setExpanded]
  split
  · split <;> rfl
  · rfl

theorem setExpanded_fst_accordion (item : CdkAccordionItem) (value : Bool) :
    ((setExpanded item value).1).accordion = item.accordion := by
  simp only [setExpanded]
  split
  · split <;> rfl
  · rfl

theorem setExpanded_false_fst_expanded (item : CdkAccordionItem) :
    ((setExpanded item false).1)._expanded = false := by
  simp only [setExpanded]
  split
  · rfl
  · next h => simpa using h

theorem uniqueSelectionListener_fst_id (item : CdkAccordionItem)
    (id accordionId : String) :
    ((uniqueSelectionListener item id accordionId).1).id = item.id := by
  unfold uniqueSelectionListener
  split
  · split
    · exact setExpanded_fst_id item false
    · rfl
  · rfl

theorem uniqueSelectionListener_fst_accordion (item : CdkAccordionItem)
    (id accordionId : String) :
    ((uniqueSelectionListener item id accordionId).1).accordion = item.accordion := by
  unfold uniqueSelectionListener
  split
  · split
    · exact setExpanded_fst_accordion item false
    · rfl
  · rfl

theorem uniqueSelectionListener_eq_setExpanded (item : CdkAccordionItem)
    (a : CdkAccordion) (id : String) (ha : item.accordion = some a)
    (hm : a.multi = false) (hid : item.id ≠ id) :
    uniqueSelectionListener item id a.id = setExpanded item false := by
  unfold uniqueSelectionListener
  rw [ha]
  exact if_pos ⟨hm, rfl, hid⟩

theorem uniqueSelectionListener_collapse (item : CdkAccordionItem)
    (a : CdkAccordion) (id : String) (ha : item.accordion = some a)
    (hm : a.multi = false) (hid : item.id ≠ id) :
    ((uniqueSelectionListener item id a.id).1)._expanded = false := by
  rw [uniqueSelectionListener_eq_setExpanded item a id ha hm hid]
  exact setExpanded_false_fst_expanded item

theorem uniqueSelectionListener_expanded_imp (item : CdkAccordionItem)
    (a : CdkAccordion) (id : String) (ha : item.accordion = some a)
    (hm : a.multi = false)
    (he : ((uniqueSelectionListener item id a.id).1)._expanded = true) :
    item.id = id := by
  by_contra hne
  rw [uniqueSelectionListener_collapse item a id ha hm hne] at he
  exact Bool.false_ne_true he

theorem notifyAll_filter_length_le_count (a : CdkAccordion)
    (hm : a.multi = false) (jid : String) :
    ∀ items : List CdkAccordionItem,
      ((notifyAll items jid a.id).filter
          (fun it => (it.accordion == some a) && it._expanded)).length ≤
        (items.map CdkAccordionItem.id).count jid := by
  intro items
  induction items with
  | nil => simp [notifyAll]
  | cons it rest ih =>
      have hcons : notifyAll (it :: rest) jid a.id =
          (uniqueSelectionListener it jid a.id).1 :: notifyAll rest jid a.id := rfl
      rw [hcons, List.filter_cons]
      by_cases hp :
          ((((uniqueSelectionListener it jid a.id).1).accordion == some a) &&
            ((uniqueSelectionListener it jid a.id).1)._expanded) = true
      · have hacc : it.accordion = some a := by
          have h1 := ((Bool.and_eq_true _ _).mp hp).1
          rw [uniqueSelectionListener_fst_accordion] at h1
          exact beq_iff_eq.mp h1
        have hexp : ((uniqueSelectionListener it jid a.id).1)._expanded = true :=
          ((Bool.and_eq_true _ _).mp hp).2
        have hid : it.id = jid :=
          uniqueSelectionListener_expanded_imp it a jid hacc hm hexp
        rw [if_pos hp]
        have hcount : ((it :: rest).map CdkAccordionItem.id).count jid =
            (rest.map CdkAccordionItem.id).count jid + 1 := by
          simp [List.count_cons, hid]
        rw [List.length_cons, hcount]
        omega
      · rw [if_neg hp]
        have hcount : (rest.map CdkAccordionItem.id).count jid ≤
            ((it :: rest).map CdkAccordionItem.id).count jid := by
          simp only [List.map_cons, List.count_cons]
          omega
        omega

/-- C1: in a non-multi accordion, a dispatcher notification carrying a
different item id and the shared accordion id collapses this item; and after
an item with ever-unique ids becomes expanded (its `expanded` setter emits the
`notify` with its id and the accordion id), at most one registered item of
that accordion is left expanded. -/
theorem c1_single_selection_dispatch :
    (∀ (item : CdkAccordionItem) (a : CdkAccordion) (otherId : String),
      item.accordion = some a → a.multi = false → otherId ≠ item.id →
      ((uniqueSelectionListener item otherId a.id).1)._expanded = false)
    ∧ (∀ (items : List CdkAccordionItem) (j : CdkAccordionItem) (a : CdkAccordion),
        j.accordion = some a → a.multi = false → j._expanded = false →
        (items.map CdkAccordionItem.id).Nodup →
        AccEvent.notify j.id a.id ∈ (setExpanded j true).2 ∧
        ((notifyAll items j.id a.id).filter
            (fun it => (it.accordion == some a) && it._expanded)).length ≤ 1) := by
  constructor
  · intro item a otherId ha hm hne
    exact uniqueSelectionListener_collapse item a otherId ha hm (Ne.symm hne)
  · intro items j a ha hm hj hnodup
    constructor
    · simp only [setExpanded, ha, hj]
      simp
    · calc ((notifyAll items j.id a.id).filter _).length ≤
            (items.map CdkAccordionItem.id).count j.id :=
            notifyAll_filter_length_le_count a hm j.id items
        _ ≤ 1 := List.nodup_iff_count_le_one.mp hnodup j.id

/-- Witness for C1 at a concrete two-item non-multi accordion. -/
theorem c1_single_selection_dispatch_witness :
    ((uniqueSelectionListener
        ⟨"cdk-accordion-child-1", some ⟨"cdk-accordion-0", false⟩, true, false⟩
        "cdk-accordion-child-0" "cdk-accordion-0").1)._expanded = false
    ∧ AccEvent.notify "cdk-accordion-child-0" "cdk-accordion-0" ∈
        (setExpanded
          ⟨"cdk-accordion-child-0", some ⟨"cdk-accordion-0", false⟩, false, false⟩
          true).2
    ∧ ((notifyAll
          [⟨"cdk-accordion-child-0", some ⟨"cdk-accordion-0", false⟩, true, false⟩,
           ⟨"cdk-accordion-child-1", some ⟨"cdk-accordion-0", false⟩, true, false⟩]
          "cdk-accordion-child-0" "cdk-accordion-0").filter
        (fun it => (it.accordion == some ⟨"cdk-accordion-0", false⟩) &&
          it._expanded)).length ≤ 1 := by
  refine ⟨?_, ?_, ?_⟩
  · exact c1_single_selection_dispatch.1 _ ⟨"cdk-accordion-0", false⟩ _ rfl rfl
      (by decide)
  · exact (c1_single_selection_dispatch.2
      [⟨"cdk-accordion-child-0", some ⟨"cdk-accordion-0", false⟩, true, false⟩,
       ⟨"cdk-accordion-child-1", some ⟨"cdk-accordion-0", false⟩, true, false⟩]
      ⟨"cdk-accordion-child-0", some ⟨"cdk-accordion-0", false⟩, false, false⟩
      ⟨"cdk-accordion-0", false⟩ rfl rfl rfl (by decide)).1
  · exact (c1_single_selection_dispatch.2
      [⟨"cdk-accordion-child-0", some ⟨"cdk-accordion-0", false⟩, true, false⟩,
       ⟨"cdk-accordion-child-1", some ⟨"cdk-accordion-0", false⟩, true, false⟩]
      ⟨"cdk-accordion-child-0", some ⟨"cdk-accordion-0", false⟩, false, false⟩
      ⟨"cdk-accordion-0", false⟩ rfl rfl rfl (by decide)).2

/-- C8: a disabled accordion item ignores `toggle`, `open`, `close` and the
accordion's openAll/closeAll actions (state unchanged, no events emitted),
but the unique-selection dispatch is not guarded by `disabled`: a sibling
expansion in the same non-multi accordion still collapses it. -/
theorem c8_disabled_guard_scope (item : CdkAccordionItem)
    (hd : item._disabled = true) :
    toggle item = (item, []) ∧
    openItem item = (item, []) ∧
    closeItem item = (item, []) ∧
    (∀ value, openCloseAllHandler item value = (item, [])) ∧
    (∀ (a : CdkAccordion) (otherId : String), item.accordion = some a →
      a.multi = false → otherId ≠ item.id →
      ((uniqueSelectionListener item otherId a.id).1)._expanded = false) := by
  refine ⟨?_, ?_, ?_, fun value => ?_, fun a otherId ha hm hne => ?_⟩
  · simp [toggle, hd]
  · simp [openItem, hd]
  · simp [closeItem, hd]
  · simp [openCloseAllHandler, hd]
  · exact uniqueSelectionListener_collapse item a otherId ha hm (Ne.symm hne)

/-- Witness for C8 at a concrete disabled, expanded item. -/
theorem c8_disabled_guard_scope_witness :
    toggle ⟨"cdk-accordion-child-3", some ⟨"cdk-accordion-1", false⟩, true, true⟩ =
      (⟨"cdk-accordion-child-3", some ⟨"cdk-accordion-1", false⟩, true, true⟩, [])
    ∧ openItem ⟨"cdk-accordion-child-3", some ⟨"cdk-accordion-1", false⟩, true, true⟩ =
      (⟨"cdk-accordion-child-3", some ⟨"cdk-accordion-1", false⟩, true, true⟩, [])
    ∧ closeItem ⟨"cdk-accordion-child-3", some ⟨"cdk-accordion-1", false⟩, true, true⟩ =
      (⟨"cdk-accordion-child-3", some ⟨"cdk-accordion-1", false⟩, true, true⟩, [])
    ∧ openCloseAllHandler
        ⟨"cdk-accordion-child-3", some ⟨"cdk-accordion-1", false⟩, true, true⟩ true =
      (⟨"cdk-accordion-child-3", some ⟨"cdk-accordion-1", false⟩, true, true⟩, [])
    ∧ ((uniqueSelectionListener
          ⟨"cdk-accordion-child-3", some ⟨"cdk-accordion-1", false⟩, true, true⟩
          "cdk-accordion-child-2" "cdk-accordion-1").1)._expanded = false := by
  have h := c8_disabled_guard_scope
    ⟨"cdk-accordion-child-3", some ⟨"cdk-accordion-1", false⟩, true, true⟩ rfl
  exact ⟨h.1, h.2.1, h.2.2.1, h.2.2.2.1 true,
    h.2.2.2.2 ⟨"cdk-accordion-1", false⟩ "cdk-accordion-child-2" rfl rfl (by decide)⟩

/-! ## Lemmas about the nested tree control -/

mutual

theorem _getDescendants_eq_append {κ : Type} :
    ∀ (acc : List (DataNode κ)) (t : DataNode κ),
      _getDescendants acc t = acc ++ preorder t
  | acc, DataNode.mk v cs => by
      simp only [_getDescendants, preorder]
      rw [_getDescendantsOfChildren_eq_append]
      simp

theorem _getDescendantsOfChildren_eq_append {κ : Type} :
    ∀ (acc : List (DataNode κ)) (ts : List (DataNode κ)),
      _getDescendantsOfChildren acc ts = acc ++ preorderOfChildren ts
  | acc, [] => by simp [_getDescendantsOfChildren, preorderOfChildren]
  | acc, c :: cs => by
      simp only [_getDescendantsOfChildren, preorderOfChildren]
      rw [_getDescendants_eq_append, _getDescendantsOfChildren_eq_append]
      simp

end

theorem preorder_eq_cons_getDescendants {κ : Type} (t : DataNode κ) :
    preorder t = t :: getDescendants t := by
  cases t with
  | mk v cs =>
      unfold getDescendants
      rw [_getDescendants_eq_append]
      simp [preorder]

theorem select_mem {K : Type} [DecidableEq K] :
    ∀ (values : List K) (m : SelectionModel K) (k : K),
      k ∈ (m.select values).selected ↔ k ∈ m.selected ∨ k ∈ values := by
  intro values
  induction values with
  | nil => intro m k; simp [SelectionModel.select]
  | cons v vs ih =>
      intro m k
      have hstep : m.select (v :: vs) =
          (if v ∈ m.selected then m
           else { m with selected := m.selected ++ [v] }).select vs := rfl
      rw [hstep, ih]
      by_cases hv : v ∈ m.selected
      · rw [if_pos hv]
        simp only [List.mem_cons]
        constructor
        · rintro (h | h)
          · exact Or.inl h
          · exact Or.inr (Or.inr h)
        · rintro (h | h | h)
          · exact Or.inl h
          · exact Or.inl (h ▸ hv)
          · exact Or.inr h
      · rw [if_neg hv]
        simp only [List.mem_append, List.mem_singleton, List.mem_cons]
        tauto

theorem expandAll_collect_mem {κ : Type} :
    ∀ (roots acc : List (DataNode κ)) (x : DataNode κ),
      x ∈ roots.foldl
          (fun accumulator dataNode =>
            accumulator ++ getDescendants dataNode ++ [dataNode]) acc ↔
        x ∈ acc ∨ x ∈ preorderOfChildren roots := by
  intro roots
  induction roots with
  | nil => intro acc x; simp [preorderOfChildren]
  | cons r rs ih =>
      intro acc x
      have hstep : (r :: rs).foldl
          (fun accumulator dataNode =>
            accumulator ++ getDescendants dataNode ++ [dataNode]) acc =
          rs.foldl
            (fun accumulator dataNode =>
              accumulator ++ getDescendants dataNode ++ [dataNode])
            (acc ++ getDescendants r ++ [r]) := rfl
      rw [hstep, ih]
      simp only [preorderOfChildren, preorder_eq_cons_getDescendants r,
        List.mem_append, List.mem_singleton, List.mem_cons]
      tauto

/-- C3: for data nodes whose children are synchronous arrays at every level,
`getDescendants` returns exactly the strict descendants in depth-first
preorder: the preorder traversal of a node is the node followed by
`getDescendants` of that node. -/
theorem c3_getDescendants_strict_preorder {κ : Type} (dataNode : DataNode κ) :
    preorder dataNode = dataNode :: getDescendants dataNode ∧
    getDescendants dataNode = preorderOfChildren (getChildren dataNode) := by
  constructor
  · exact preorder_eq_cons_getDescendants dataNode
  · cases dataNode with
    | mk v cs =>
        unfold getDescendants
        rw [_getDescendants_eq_append]
        simp [preorder, getChildren]

/-- C2: after `expandAll`, the expansion model's selected set is exactly the
track-by values of all root nodes of `dataNodes` together with all of their
descendants, and the result does not depend on what was selected before the
call (the model is cleared first). -/
theorem c2_expandAll_selected {κ K : Type} [DecidableEq K]
    (c : NestedTreeControl κ K) :
    (∀ k : K, k ∈ (expandAll c).expansionModel.selected ↔
        k ∈ (preorderOfChildren c.dataNodes).map c._trackByValue) ∧
    (∀ m' : SelectionModel K,
      (expandAll { c with expansionModel := m' }).expansionModel =
        (expandAll c).expansionModel) := by
  constructor
  · intro k
    have h1 : (expandAll c).expansionModel.selected =
        ((⟨[]⟩ : SelectionModel K).select
          ((c.dataNodes.foldl
              (fun accumulator dataNode =>
                accumulator ++ getDescendants dataNode ++ [dataNode]) []).map
            c._trackByValue)).selected := rfl
    rw [h1, select_mem]
    simp only [List.mem_map, List.not_mem_nil, false_or]
    constructor
    · rintro ⟨t, ht, rfl⟩
      have h2 := (expandAll_collect_mem c.dataNodes [] t).mp ht
      simp only [List.not_mem_nil, false_or] at h2
      exact ⟨t, h2, rfl⟩
    · rintro ⟨t, ht, rfl⟩
      exact ⟨t, (expandAll_collect_mem c.dataNodes [] t).mpr (Or.inr ht), rfl⟩
  · intro m'
    rfl

/-! ## Lemmas about the input-names migration -/

theorem mem_findAllSubstringIndices (input search : List Char) (i : Nat) :
    i ∈ findAllSubstringIndices input search ↔
      i < input.length ∧ occursAt input search i := by
  simp [findAllSubstringIndices, List.mem_filter, List.mem_range]

theorem occursAt_lt_length (input search : List Char) (i : Nat)
    (hs : search ≠ []) (h : occursAt input search i) : i < input.length := by
  by_contra hge
  push_neg at hge
  have hdrop : input.drop i = [] := List.drop_eq_nil_of_le hge
  unfold occursAt at h
  rw [hdrop, List.take_nil] at h
  exact hs h.symm

/-- C4: the edits recorded by `visitStylesheet` are exactly, for every
upgrade datum and every occurrence of the old attribute selector in the
stylesheet content, a removal of the old selector's length at the occurrence
offset (shifted by the stylesheet start) together with an insertion of the
new attribute selector at the same offset — and nothing else. -/
theorem c4_visitStylesheet_edits (data : List InputNameUpgradeDatum)
    (stylesheet : ResolvedResource) (op : EditOp) :
    op ∈ visitStylesheet data stylesheet ↔
      ∃ name ∈ data, ∃ i : Nat,
        occursAt stylesheet.content (attributeSelector name.replace) i ∧
        (op = EditOp.remove stylesheet.filePath (stylesheet.start + i)
            (attributeSelector name.replace).length ∨
         op = EditOp.insertRight stylesheet.filePath (stylesheet.start + i)
            (attributeSelector name.replaceWith)) := by
  constructor
  · intro h
    simp only [visitStylesheet, List.mem_flatMap, List.mem_map,
      _replaceInputName, List.mem_cons, List.mem_singleton,
      List.not_mem_nil, or_false] at h
    obtain ⟨name, hname, s, ⟨offset, hoff, rfl⟩, hop⟩ := h
    rw [mem_findAllSubstringIndices] at hoff
    exact ⟨name, hname, offset, hoff.2, hop⟩
  · rintro ⟨name, hname, i, hocc, hop⟩
    simp only [visitStylesheet, List.mem_flatMap, List.mem_map,
      _replaceInputName, List.mem_cons, List.mem_singleton,
      List.not_mem_nil, or_false]
    refine ⟨name, hname, stylesheet.start + i, ⟨i, ?_, rfl⟩, hop⟩
    rw [mem_findAllSubstringIndices]
    refine ⟨?_, hocc⟩
    exact occursAt_lt_length stylesheet.content (attributeSelector name.replace)
      i (by simp [attributeSelector]) hocc

/-! ## Lemmas about test-harness typing -/

theorem flatMap_single_char (keys : List TypeKey)
    (hsingle : ∀ k ∈ keys, singleCharKey k = true) :
    keys.flatMap (fun k =>
      [TypeEvent.keydown k, TypeEvent.keypress k]
        ++ (if singleCharKey k then
              [TypeEvent.appendValue (k.key.getD ""), TypeEvent.input] else [])
        ++ [TypeEvent.keyup k]) =
    keys.flatMap (fun k =>
      [TypeEvent.keydown k, TypeEvent.keypress k,
       TypeEvent.appendValue (k.key.getD ""), TypeEvent.input,
       TypeEvent.keyup k]) := by
  induction keys with
  | nil => rfl
  | cons k ks ih =>
      rw [List.flatMap_cons, List.flatMap_cons,
        ih (fun x hx => hsingle x (List.mem_cons_of_mem k hx))]
      simp [hsingle k (List.mem_cons_self k ks)]

/-- Counterexample to C5 as stated: an element whose `type` attribute is
present but empty. The claim's input type (defaulting to `'text'` only when
the attribute is absent) is the empty string, which is neither one of the
incremental input types nor `'number'`, so the claim predicts the
whole-value path; but `getAttribute('type') || 'text'` also treats the empty
string as `'text'`, so the code enters the value incrementally (no wholesale
`value` assignment, a per-character append and `input` dispatch instead). -/
theorem c5_typeInElement_counterexample :
    claimInputType (some "") ∉ incrementalInputTypes ∧
    claimInputType (some "") ≠ "number" ∧
    enterValueIncrementally (some "") [⟨some 65, some "a"⟩] = true ∧
    TypeEvent.setValue "a" ∉ typeInElement true (some "") [⟨some 65, some "a"⟩] ∧
    TypeEvent.appendValue "a" ∈ typeInElement true (some "") [⟨some 65, some "a"⟩] := by
  decide

/-- C5 (amended: the type attribute defaults to `'text'` when absent or
empty): the value is entered incrementally exactly when the resolved type is
one of text, email, hidden, password, search, tel, url, or is `number` with a
non-empty key list containing no '.' key; in incremental mode each character
is appended and an `input` event dispatched between that character's
keydown/keypress and keyup; otherwise the full concatenated value is assigned
once before any key events and a single `input` event is dispatched after all
key events. -/
theorem c5_typeInElement_modes (isInput : Bool) (typeAttr : Option String)
    (keys : List TypeKey) :
    (enterValueIncrementally typeAttr keys = true ↔
      (resolvedInputType typeAttr ∈ incrementalInputTypes ∨
        (resolvedInputType typeAttr = "number" ∧ keys ≠ [] ∧
          ∀ k ∈ keys, k.key ≠ some "." ∧ k.keyCode ≠ some PERIOD))) ∧
    (enterValueIncrementally typeAttr keys = true → isInput = true →
      (∀ k ∈ keys, singleCharKey k = true) →
      typeInElement isInput typeAttr keys =
        TypeEvent.focus :: keys.flatMap (fun k =>
          [TypeEvent.keydown k, TypeEvent.keypress k,
           TypeEvent.appendValue (k.key.getD ""), TypeEvent.input,
           TypeEvent.keyup k])) ∧
    (enterValueIncrementally typeAttr keys = false →
      typeInElement isInput typeAttr keys =
        TypeEvent.focus :: TypeEvent.setValue (keysValue keys) ::
          (keys.flatMap (fun k =>
            [TypeEvent.keydown k, TypeEvent.keypress k, TypeEvent.keyup k])
           ++ [TypeEvent.input])) := by
  refine ⟨?_, ?_, ?_⟩
  · unfold enterValueIncrementally
    by_cases hc : resolvedInputType typeAttr = "number" ∧ 0 < keys.length
    · rw [if_pos hc]
      obtain ⟨hnum, hlen⟩ := hc
      have hne : keys ≠ [] := by
        intro h
        rw [h] at hlen
        simp at hlen
      have hmem : resolvedInputType typeAttr ∉ incrementalInputTypes := by
        rw [hnum]
        decide
      rw [List.all_eq_true]
      constructor
      · intro hall
        refine Or.inr ⟨hnum, hne, fun k hk => ?_⟩
        have hk2 := hall k hk
        simp only [Bool.and_eq_true, Bool.not_eq_true', beq_eq_false_iff_ne] at hk2
        exact hk2
      · rintro (h | ⟨-, -, hall⟩)
        · exact absurd h hmem
        · intro k hk
          simp only [Bool.and_eq_true, Bool.not_eq_true', beq_eq_false_iff_ne]
          exact hall k hk
    · rw [if_neg hc]
      constructor
      · intro hcont
        exact Or.inl (by simpa using hcont)
      · rintro (h | ⟨hnum, hne, -⟩)
        · simpa using h
        · refine absurd ⟨hnum, ?_⟩ hc
          cases keys with
          | nil => exact absurd rfl hne
          | cons k ks => simp
  · intro hinc hisInput hsingle
    simp only [typeInElement, hinc, hisInput, Bool.true_and, Bool.and_true,
      if_true]
    rw [flatMap_single_char keys hsingle]
    simp
  · intro hninc
    simp only [typeInElement, hninc, Bool.and_false, Bool.false_eq_true,
      if_false]
    simp

/-- Witness for C5 at a concrete text input (incremental) and a concrete
unknown input type (whole-value assignment). -/
theorem c5_typeInElement_modes_witness :
    enterValueIncrementally (some "text") [⟨some 65, some "a"⟩] = true ∧
    typeInElement true (some "text") [⟨some 65, some "a"⟩] =
      [TypeEvent.focus, TypeEvent.keydown ⟨some 65, some "a"⟩,
       TypeEvent.keypress ⟨some 65, some "a"⟩, TypeEvent.appendValue "a",
       TypeEvent.input, TypeEvent.keyup ⟨some 65, some "a"⟩] ∧
    enterValueIncrementally (some "color") [⟨some 65, some "a"⟩] = false ∧
    typeInElement true (some "color") [⟨some 65, some "a"⟩] =
      [TypeEvent.focus, TypeEvent.setValue "a",
       TypeEvent.keydown ⟨some 65, some "a"⟩,
       TypeEvent.keypress ⟨some 65, some "a"⟩,
       TypeEvent.keyup ⟨some 65, some "a"⟩, TypeEvent.input] := by
  refine ⟨by decide, ?_, by decide, ?_⟩
  · have h := (c5_typeInElement_modes true (some "text")
      [⟨some 65, some "a"⟩]).2.1 (by decide) rfl (by decide)
    exact h.trans (by decide)
  · have h := (c5_typeInElement_modes true (some "color")
      [⟨some 65, some "a"⟩]).2.2 (by decide)
    exact h.trans (by decide)

/-! ## Fullscreen overlay container, snack bar, calendar -/

/-- C6: `getFullscreenElement` consults `fullscreenElement` and then the
webkit/moz/ms prefixed variants in that order, returning null (none) when no
fullscreen element is set; and on a fullscreen-change event, when the
container element exists it is re-appended to the current fullscreen element
when one exists, otherwise to `document.body`. -/
theorem c6_fullscreen_container (doc : FsDocument)
    (c : FullscreenOverlayContainer) :
    (∀ e, doc.fullscreenElement = some e → getFullscreenElement doc = some e) ∧
    (doc.fullscreenElement = none → ∀ e, doc.webkitFullscreenElement = some e →
      getFullscreenElement doc = some e) ∧
    (doc.fullscreenElement = none → doc.webkitFullscreenElement = none →
      ∀ e, doc.mozFullScreenElement = some e →
      getFullscreenElement doc = some e) ∧
    (doc.fullscreenElement = none → doc.webkitFullscreenElement = none →
      doc.mozFullScreenElement = none → ∀ e, doc.msFullscreenElement = some e →
      getFullscreenElement doc = some e) ∧
    (doc.fullscreenElement = none → doc.webkitFullscreenElement = none →
      doc.mozFullScreenElement = none → doc.msFullscreenElement = none →
      getFullscreenElement doc = none) ∧
    (c._containerElement ≠ none →
      (∀ e, getFullscreenElement doc = some e →
        (_adjustParentForFullscreenChange doc c).parent = some e) ∧
      (getFullscreenElement doc = none →
        (_adjustParentForFullscreenChange doc c).parent = some doc.body)) := by
  refine ⟨?_, ?_, ?_, ?_, ?_, ?_⟩
  · intro e h
    simp [getFullscreenElement, h]
  · intro h1 e h
    simp [getFullscreenElement, h1, h]
  · intro h1 h2 e h
    simp [getFullscreenElement, h1, h2, h]
  · intro h1 h2 h3 e h
    simp [getFullscreenElement, h1, h2, h3, h]
  · intro h1 h2 h3 h4
    simp [getFullscreenElement, h1, h2, h3, h4]
  · intro hc
    obtain ⟨el, hel⟩ := Option.ne_none_iff_exists'.mp hc
    constructor
    · intro e hfs
      simp [_adjustParentForFullscreenChange, hel, hfs]
    · intro hfs
      simp [_adjustParentForFullscreenChange, hel, hfs]

/-- Witness for C6 at a concrete document with and without a fullscreen
element. -/
theorem c6_fullscreen_container_witness :
    getFullscreenElement ⟨some "fs-el", none, none, none, "body"⟩ = some "fs-el" ∧
    getFullscreenElement ⟨none, none, none, none, "body"⟩ = none ∧
    (_adjustParentForFullscreenChange ⟨some "fs-el", none, none, none, "body"⟩
        ⟨some "overlay-container", some "body"⟩).parent = some "fs-el" ∧
    (_adjustParentForFullscreenChange ⟨none, none, none, none, "body"⟩
        ⟨some "overlay-container", some "body"⟩).parent = some "body" := by
  refine ⟨?_, ?_, ?_, ?_⟩
  · exact (c6_fullscreen_container ⟨some "fs-el", none, none, none, "body"⟩
      ⟨some "overlay-container", some "body"⟩).1 "fs-el" rfl
  · exact (c6_fullscreen_container ⟨none, none, none, none, "body"⟩
      ⟨some "overlay-container", some "body"⟩).2.2.2.2.1 rfl rfl rfl rfl
  · exact (((c6_fullscreen_container ⟨some "fs-el", none, none, none, "body"⟩
      ⟨some "overlay-container", some "body"⟩).2.2.2.2.2 (by decide)).1)
      "fs-el" rfl
  · exact (((c6_fullscreen_container ⟨none, none, none, none, "body"⟩
      ⟨some "overlay-container", some "body"⟩).2.2.2.2.2 (by decide)).2) rfl

/-- C9: each of the three snack-bar attach methods, called in dev mode while
the portal outlet already has attached content, throws the error
'Attempting to attach snack bar content after content is already attached'
and leaves the container state — attached content and CSS class list —
untouched. -/
theorem c9_snack_bar_attach_guard (ngDevMode : Option Bool)
    (st : MatSnackBarContainer) (hatt : st.portalOutletAttached = true)
    (hdev : ngDevMode = none ∨ ngDevMode = some true) :
    attachComponentPortal ngDevMode st =
      (st, Except.error
        "Attempting to attach snack bar content after content is already attached") ∧
    attachTemplatePortal ngDevMode st =
      (st, Except.error
        "Attempting to attach snack bar content after content is already attached") ∧
    attachDomPortal ngDevMode st =
      (st, Except.error
        "Attempting to attach snack bar content after content is already attached") := by
  have hassert : _assertNotAttached ngDevMode st =
      Except.error
        "Attempting to attach snack bar content after content is already attached" := by
    unfold _assertNotAttached
    rw [if_pos ⟨hatt, hdev⟩]
  refine ⟨?_, ?_, ?_⟩ <;>
    simp [attachComponentPortal, attachTemplatePortal, attachDomPortal,
      attachPortalContent, hassert]

/-- Witness for C9 at a concrete already-attached container in dev mode. -/
theorem c9_snack_bar_attach_guard_witness :
    attachComponentPortal none ⟨true, [], ⟨none, "start", "bottom"⟩⟩ =
      (⟨true, [], ⟨none, "start", "bottom"⟩⟩, Except.error
        "Attempting to attach snack bar content after content is already attached") ∧
    attachTemplatePortal none ⟨true, [], ⟨none, "start", "bottom"⟩⟩ =
      (⟨true, [], ⟨none, "start", "bottom"⟩⟩, Except.error
        "Attempting to attach snack bar content after content is already attached") ∧
    attachDomPortal none ⟨true, [], ⟨none, "start", "bottom"⟩⟩ =
      (⟨true, [], ⟨none, "start", "bottom"⟩⟩, Except.error
        "Attempting to attach snack bar content after content is already attached") := by
  exact c9_snack_bar_attach_guard none ⟨true, [], ⟨none, "start", "bottom"⟩⟩
    rfl (Or.inl rfl)

/-- Counterexample to C10 as stated: with `minDate = 5` and `maxDate = 3`
(bounds set in the wrong order), assigning `activeDate = 1` stores the
clamped value 5, which is after the set `maxDate` — contradicting "never
after maxDate (when set)". -/
theorem c10_counterexample :
    (setActiveDate ⟨some 5, some 3, 0⟩ 1).maxDate = some 3 ∧
    3 < activeDate (setActiveDate ⟨some 5, some 3, 0⟩ 1) := by
  decide

/-- C10 (amended: provided `minDate ≤ maxDate` whenever both bounds are set):
every assignment to `activeDate` stores `clampDate(value, minDate, maxDate)`,
and the stored value is never before `minDate` (when set) and never after
`maxDate` (when set). -/
theorem c10_activeDate_clamped (cal : MatCalendar) (value : Int) :
    activeDate (setActiveDate cal value) =
      clampDate value cal.minDate cal.maxDate ∧
    (∀ m, cal.minDate = some m →
      (∀ x, cal.maxDate = some x → m ≤ x) →
      m ≤ activeDate (setActiveDate cal value)) ∧
    (∀ x, cal.maxDate = some x →
      (∀ m, cal.minDate = some m → m ≤ x) →
      activeDate (setActiveDate cal value) ≤ x) := by
  refine ⟨rfl, ?_, ?_⟩
  · intro m hm hmx
    show m ≤ clampDate value cal.minDate cal.maxDate
    rw [hm]
    simp only [clampDate]
    split
    · exact le_refl m
    · next h =>
        push_neg at h
        cases hx : cal.maxDate with
        | none => simpa [clampDateUpper] using h
        | some M =>
            have hmM := hmx M hx
            simp only [clampDateUpper]
            split
            · exact hmM
            · exact h
  · intro M hM hmM'
    show clampDate value cal.minDate cal.maxDate ≤ M
    cases hm : cal.minDate with
    | none =>
        simp only [clampDate, hM, clampDateUpper]
        split
        · exact le_refl M
        · next h =>
            push_neg at h
            exact h
    | some m =>
        have hmM := hmM' m hm
        simp only [clampDate, hM, clampDateUpper]
        split
        · exact hmM
        · split
          · exact le_refl M
          · next h =>
              push_neg at h
              exact h

/-- Witness for C10 at a calendar with bounds 0 and 10 and an assignment of
20: the stored active date is the clamp result 10, within both bounds. -/
theorem c10_activeDate_clamped_witness :
    activeDate (setActiveDate ⟨some 0, some 10, 5⟩ 20) =
      clampDate 20 (some 0) (some 10) ∧
    (0 : Int) ≤ activeDate (setActiveDate ⟨some 0, some 10, 5⟩ 20) ∧
    activeDate (setActiveDate ⟨some 0, some 10, 5⟩ 20) ≤ 10 := by
  have h := c10_activeDate_clamped ⟨some 0, some 10, 5⟩ 20
  refine ⟨h.1, ?_, ?_⟩
  · exact h.2.1 0 rfl (fun x hx => by
      rw [show x = 10 from (Option.some.inj hx).symm]
      decide)
  · exact h.2.2 10 rfl (fun m hm => by
      rw [show m = 0 from (Option.some.inj hm).symm]
      decide)

end Spec2Proof
